import Mathlib

/-!
Verification of the chessnaptracker adapters (src/chess-com.ts, src/lichess.ts).

The TypeScript source is shallowly embedded below.  Strings are Lean `String`s,
but every string operation used by the source (split, trim, toLowerCase,
includes, number parsing) is re-implemented on `List Char` so that all
definitions compute by kernel reduction.  Machine numbers are `Nat`/`Int`
(the source only manipulates non-negative integers and differences thereof);
JavaScript `NaN` is modelled by `Option` (`none` = not-a-number), which is
faithful here because every use of a possibly-NaN value in the source is a
comparison, and comparisons with NaN are false.
-/

/-- JS `String.prototype.split` with a single-character separator:
`"".split(c)` is `[""]`, separators at the ends produce empty fields. -/
def splitOnChar (sep : Char) : List Char → List (List Char)
  | [] => [[]]
  | c :: rest =>
    if c = sep then [] :: splitOnChar sep rest
    else
      match splitOnChar sep rest with
      | [] => [[c]]
      | g :: gs => (c :: g) :: gs

/-- Numeric value of a digit string, most significant digit first. -/
def natOfDigits (l : List Char) : Nat :=
  l.foldl (fun n c => n * 10 + (c.toNat - 48)) 0

/-- JS `Number(s)` on the strings this program feeds it (decimal digit
strings and the empty string): `Number("") = 0`, a non-empty all-digit
string is its decimal value, anything else is NaN (`none`). -/
def jsNum? (s : String) : Option Nat :=
  if s.data = [] then some 0
  else if s.data.all Char.isDigit then some (natOfDigits s.data)
  else none

/-- JS `String.prototype.trim` (whitespace stripped from both ends). -/
def jsTrim (s : String) : String :=
  String.mk (((s.data.dropWhile Char.isWhitespace).reverse.dropWhile
    Char.isWhitespace).reverse)

/-- JS `String.prototype.toLowerCase` on the ASCII names this program
compares. -/
def jsLower (s : String) : String :=
  String.mk (s.data.map Char.toLower)

/-- Substring occurrence test backing JS `String.prototype.includes`. -/
def listHasSeg (pat : List Char) : List Char → Bool
  | [] => pat = []
  | c :: rest => (pat.isPrefixOf (c :: rest)) || listHasSeg pat rest

/-- JS `s.includes(pat)`. -/
def jsIncludes (s pat : String) : Bool :=
  listHasSeg pat.data s.data

/-- JS `s.padStart(2, "0")` as used on the seconds field. -/
def padStartTwo (s : String) : String :=
  String.mk (List.replicate (2 - s.data.length) '0') ++ s

/-- A thrown JavaScript value, as far as the adapters' catch blocks can
distinguish it: an `Error` object carrying a message, or any non-`Error`
value. -/
inductive Thrown where
  | errObj (message : String)
  | nonError
deriving DecidableEq

namespace ChessCom

/-- `chess-com.ts` lines 276-281: the top-level catch block of
`fetchChessComGames`.  An `instanceof Error` value is re-thrown unchanged;
anything else is replaced by `new Error('No games found')`. -/
def catchNormalize (e : Thrown) : Thrown :=
  match e with
  | .errObj m => .errObj m
  | .nonError => .errObj "No games found"

/-- One maximal run of `p`-characters followed by the rest
(regex `p+`, greedy); fails when the run is empty. -/
def munch1 (p : Char → Bool) (l : List Char) : Option (List Char × List Char) :=
  let d := l.takeWhile p
  if d.isEmpty then none else some (d, l.dropWhile p)

/-- Body of the clock regex after the literal `[%clk` has been consumed:
whitespace, digits, colon, digits, colon, digits with an optional
fractional part, closing bracket.  Returns the three captured fields
(hours, minutes, seconds-with-optional-fraction). -/
def matchClkBody (l : List Char) : Option (List Char × List Char × List Char) :=
  match munch1 Char.isWhitespace l with
  | none => none
  | some (_, r0) =>
    match munch1 Char.isDigit r0 with
    | none => none
    | some (h, r1) =>
      match r1 with
      | ':' :: r2 =>
        match munch1 Char.isDigit r2 with
        | none => none
        | some (m, r3) =>
          match r3 with
          | ':' :: r4 =>
            match munch1 Char.isDigit r4 with
            | none => none
            | some (si, r5) =>
              match r5 with
              | ']' :: _ => some (h, m, si)
              | '.' :: r6 =>
                match munch1 Char.isDigit r6 with
                | none => none
                | some (f, r7) =>
                  match r7 with
                  | ']' :: _ => some (h, m, si ++ '.' :: f)
                  | _ => none
              | _ => none
          | _ => none
      | _ => none

/-- Search for the first match of the clock regex
(`chess-com.ts` line 31): scan left to right for the literal `[%clk`,
then try the body; on failure resume the scan one character further. -/
def searchClk : List Char → Option (List Char × List Char × List Char)
  | [] => none
  | '[' :: '%' :: 'c' :: 'l' :: 'k' :: body =>
    (match matchClkBody body with
     | some r => some r
     | none => searchClk ('%' :: 'c' :: 'l' :: 'k' :: body))
  | _ :: rest => searchClk rest

/-- JS `Math.floor(parseFloat(s))` on a captured seconds field (digits with
an optional fractional part): the leading digit run's value. -/
def parseFloatFloor (sec : List Char) : Nat :=
  natOfDigits (sec.takeWhile Char.isDigit)

/-- `chess-com.ts` lines 30-37 (`parseClockComment`): extract the first
`%clk` token and rebuild it as `hours:minutes:floor(seconds)` — the
captured hour and minute fields verbatim, the seconds field truncated to
an integer and re-rendered in decimal. -/
def parseClockComment (comment : String) : Option String :=
  match searchClk comment.data with
  | some (h, m, sec) =>
    some (String.mk h ++ ":" ++ String.mk m ++ ":" ++ Nat.repr (parseFloatFloor sec))
  | none => none

/-- Total seconds of an `h:m:s` clock string (`chess-com.ts` lines 40-44):
split on `:`, convert the first three fields with `Number`, combine.
`none` models NaN (a missing or non-numeric field). -/
def clockTotal? (s : String) : Option Int :=
  let parts := (splitOnChar ':' s.data).map (fun l => jsNum? (String.mk l))
  match parts.get? 0, parts.get? 1, parts.get? 2 with
  | some (some h), some (some m), some (some sec) =>
    some ((h : Int) * 3600 + (m : Int) * 60 + (sec : Int))
  | _, _, _ => none

/-- `chess-com.ts` lines 39-48 (`calculateTimeSpent`): previous clock total
minus current clock total, kept only when strictly positive.  A NaN total
makes the `> 0` comparison false, hence `none`. -/
def calculateTimeSpent (currentTime previousTime : String) : Option Int :=
  match clockTotal? currentTime, clockTotal? previousTime with
  | some currentTotal, some previousTotal =>
    let timeSpent := previousTotal - currentTotal
    if timeSpent > 0 then some timeSpent else none
  | _, _ => none

/-- The source stores `timeSpent.toString()`. -/
def calculateTimeSpentStr (currentTime previousTime : String) : Option String :=
  (calculateTimeSpent currentTime previousTime).map (fun n => toString n)

/-- First match of the brace regex of `chess-com.ts` line 56 (an opening
brace, any run of non-closing-brace characters, a closing brace): returns
the captured content.  When an opening brace has no closing brace after
it, the scan resumes at the next character, as a regex engine would. -/
def braceMatch : List Char → Option (List Char)
  | [] => none
  | '{' :: rest =>
    (match rest.dropWhile (fun c => c ≠ '}') with
     | '}' :: _ => some (rest.takeWhile (fun c => c ≠ '}'))
     | _ => braceMatch rest)
  | _ :: rest => braceMatch rest

/-- JS `moveText.replace(clockPattern, '')`: delete the first match of the
brace regex, keep everything else. -/
def removeBrace : List Char → List Char
  | [] => []
  | '{' :: rest =>
    (match rest.dropWhile (fun c => c ≠ '}') with
     | _ :: tail => tail
     | [] => '{' :: removeBrace rest)
  | c :: rest => c :: removeBrace rest

/-- JS `cleanMove.replace(move-number-regex, '')` (`chess-com.ts` line 87):
strip a leading run of digits, a dot, up to two further dots, and trailing
whitespace; leave the string unchanged when that shape is not present. -/
def stripMoveNum (l : List Char) : List Char :=
  let d := l.takeWhile Char.isDigit
  if d.isEmpty then l
  else
    match l.dropWhile Char.isDigit with
    | '.' :: r1 =>
      let r2 := match r1 with
        | '.' :: r => (match r with | '.' :: rr => rr | _ => r)
        | _ => r1
      r2.dropWhile Char.isWhitespace
    | _ => l

/-- `chess-com.ts` lines 22-28. -/
structure ClockInfo where
  time : String
  moveText : String
  moveNumber : Nat
  isWhite : Bool
  timeSpent : Option String
deriving DecidableEq

/-- The loop state of `formatPGN` (`chess-com.ts` lines 57-64). -/
structure PGNState where
  currentMoveNumber : Nat
  isWhiteMove : Bool
  previousWhiteTime : Option String
  previousBlackTime : Option String
  formattedMoves : List String
  clocks : List ClockInfo
deriving DecidableEq

def initState : PGNState :=
  { currentMoveNumber := 1, isWhiteMove := true, previousWhiteTime := none,
    previousBlackTime := none, formattedMoves := [], clocks := [] }

/-- One iteration of the `while` loop of `formatPGN`
(`chess-com.ts` lines 66-108) on one tokenized ply.  A ply with a brace
annotation whose clock token parses is recorded and toggles the
white/black state; a ply without a brace annotation is kept in the move
text and toggles the state; a ply whose brace annotation does not contain
a parsable clock token falls through both inner branches and leaves the
state untouched. -/
def stepToken (st : PGNState) (moveText : String) : PGNState :=
  match braceMatch moveText.data with
  | some clockCommentChars =>
    (match parseClockComment (String.mk clockCommentChars) with
     | some clock =>
       let cleanMove := jsTrim (String.mk (removeBrace moveText.data))
       let timeSpent : Option String :=
         if st.isWhiteMove then
           match st.previousWhiteTime with
           | some prev => calculateTimeSpentStr clock prev
           | none => none
         else
           match st.previousBlackTime with
           | some prev => calculateTimeSpentStr clock prev
           | none => none
       let info : ClockInfo :=
         { time := clock
           moveText := String.mk (stripMoveNum cleanMove.data)
           moveNumber := st.currentMoveNumber
           isWhite := st.isWhiteMove
           timeSpent := timeSpent }
       { currentMoveNumber :=
           if st.isWhiteMove then st.currentMoveNumber else st.currentMoveNumber + 1
         isWhiteMove := !st.isWhiteMove
         previousWhiteTime := if st.isWhiteMove then some clock else st.previousWhiteTime
         previousBlackTime := if st.isWhiteMove then st.previousBlackTime else some clock
         formattedMoves := st.formattedMoves ++ [cleanMove]
         clocks := st.clocks ++ [info] }
     | none => st)
  | none =>
    { st with
      formattedMoves := st.formattedMoves ++ [moveText]
      currentMoveNumber :=
        if st.isWhiteMove then st.currentMoveNumber else st.currentMoveNumber + 1
      isWhiteMove := !st.isWhiteMove }

/-- Run the `formatPGN` loop over an already-tokenized ply list. -/
def runTokens (tokens : List String) : PGNState :=
  tokens.foldl stepToken initState

/-- One match attempt of the ply-tokenizing regex of `chess-com.ts`
line 55 at the head of the input: a digit run, a dot, optionally two more
dots, optional whitespace, a non-whitespace run, and optionally
whitespace followed by a brace annotation.  Returns the matched token and
the rest of the input.  (The service's move text always separates a move
from its annotation with a space, so no backtracking into the
non-whitespace run is needed.) -/
def matchPly (l : List Char) : Option (List Char × List Char) :=
  let d := l.takeWhile Char.isDigit
  if d.isEmpty then none
  else
    match l.dropWhile Char.isDigit with
    | '.' :: r1 =>
      let dots : List Char × List Char :=
        (match r1 with
         | '.' :: '.' :: r2 => (['.', '.'], r2)
         | _ => ([], r1))
      let ws := dots.2.takeWhile Char.isWhitespace
      let r3 := dots.2.dropWhile Char.isWhitespace
      let mv := r3.takeWhile (fun ch => !ch.isWhitespace)
      if mv.isEmpty then none
      else
        let r4 := r3.dropWhile (fun ch => !ch.isWhitespace)
        let ws2 := r4.takeWhile Char.isWhitespace
        let r5 := r4.dropWhile Char.isWhitespace
        let stem := d ++ '.' :: dots.1 ++ ws ++ mv
        (match r5 with
         | '{' :: r6 =>
           (match r6.dropWhile (fun ch => ch ≠ '}') with
            | '}' :: r7 =>
              some (stem ++ ws2 ++ '{' :: r6.takeWhile (fun ch => ch ≠ '}') ++ ['}'], r7)
            | _ => some (stem, r4))
         | _ => some (stem, r4))
    | _ => none

/-- The global-regex `exec` loop of `formatPGN`: collect successive
matches left to right, resuming after each match, advancing one character
when no match starts at the current position.  The fuel argument is the
input length; every step consumes at least one character, so the fuel
never runs out on the initial call. -/
def tokenizeAux : Nat → List Char → List String
  | 0, _ => []
  | _, [] => []
  | fuel + 1, c :: rest =>
    match matchPly (c :: rest) with
    | some (tok, remaining) => String.mk tok :: tokenizeAux fuel remaining
    | none => tokenizeAux fuel rest

def tokenize (l : List Char) : List String :=
  tokenizeAux l.length l

/-- Suffix of a whitespace run after its last newline, when it has one. -/
def afterLastNewline : List Char → Option (List Char)
  | [] => none
  | '\n' :: rest => some ((afterLastNewline rest).getD rest)
  | _ :: rest => afterLastNewline rest

/-- After an opening bracket of the header regex of `chess-com.ts` line 52
(bracket, lazy any-but-newline run, closing bracket, whitespace run ending
in a newline): find the lazily-first closing bracket whose following
whitespace contains a newline; the match ends after the last newline of
that whitespace run. -/
def headerClose : List Char → Option (List Char)
  | [] => none
  | '\n' :: _ => none
  | ']' :: r =>
    (match afterLastNewline (r.takeWhile Char.isWhitespace) with
     | some tail => some (tail ++ r.dropWhile Char.isWhitespace)
     | none => headerClose r)
  | _ :: r => headerClose r

/-- JS `pgn.replace(header-regex, '')`: remove every header line.  Fueled
like `tokenizeAux`. -/
def stripHeadersAux : Nat → List Char → List Char
  | 0, l => l
  | _, [] => []
  | fuel + 1, '[' :: r =>
    (match headerClose r with
     | some rest => stripHeadersAux fuel rest
     | none => '[' :: stripHeadersAux fuel r)
  | fuel + 1, c :: r => c :: stripHeadersAux fuel r

/-- `chess-com.ts` lines 50-114 (`formatPGN`): strip headers, tokenize the
move text, run the clock-extraction loop, and join the kept plies with
single spaces. -/
def formatPGN (pgn : String) : String × List ClockInfo :=
  let moves := jsTrim (String.mk (stripHeadersAux pgn.data.length pgn.data))
  let final := runTokens (tokenize moves.data)
  (String.intercalate " " final.formattedMoves, final.clocks)

/-- `chess-com.ts` lines 116-145 (`parseTimeControl`). -/
def parseTimeControl (timeControl : String) : String :=
  if timeControl = "1/86400" then "1 day"
  else if timeControl = "1/259200" then "3 days"
  else if timeControl = "1/432000" then "5 days"
  else if timeControl = "1/604800" then "7 days"
  else if timeControl = "1/1209600" then "14 days"
  else
    let parts := (splitOnChar '+' timeControl.data).map (fun l => jsNum? (String.mk l))
    let baseTime : Option Nat := (parts.get? 0).bind id
    let increment : Option Nat := (parts.get? 1).bind id
    match baseTime with
    | some base =>
      let minutes := base / 60
      let seconds := base % 60
      let timeStr :=
        if minutes > 0 then
          Nat.repr minutes ++ (if seconds > 0 then ":" ++ padStartTwo (Nat.repr seconds) else "")
        else Nat.repr seconds ++ "s"
      timeStr ++ "+" ++ (match increment with | some i => Nat.repr i | none => "0")
    | none => "-"

/-- The time-control formatter as the specification words it (spec §4.3),
kept side by side with `parseTimeControl` for the refinement claim:
day codes, otherwise `base[+increment]` in seconds with whole minutes and
a zero-padded seconds remainder when `base ≥ 60`, an `Ns` form when
`base < 60`, a default increment of 0, and `-` when the base is
unparsable. -/
def parseTimeControlSpecModel (tc : String) : String :=
  if tc = "1/86400" then "1 day"
  else if tc = "1/259200" then "3 days"
  else if tc = "1/432000" then "5 days"
  else if tc = "1/604800" then "7 days"
  else if tc = "1/1209600" then "14 days"
  else
    let parts := (splitOnChar '+' tc.data).map (fun l => jsNum? (String.mk l))
    match (parts.get? 0).bind id with
    | none => "-"
    | some base =>
      (if 60 ≤ base then
        Nat.repr (base / 60) ++
          (if base % 60 ≠ 0 then ":" ++ padStartTwo (Nat.repr (base % 60)) else "")
      else Nat.repr base ++ "s") ++
      "+" ++ Nat.repr (((parts.get? 1).bind id).getD 0)

/-- One side of `ChessComGame` (`chess-com.ts` lines 9-18). -/
structure Side where
  username : String
  rating : Nat
  result : String
deriving DecidableEq

/-- `chess-com.ts` lines 1-20 (`ChessComGame`).  `rules` is a string whose
empty value models the JS-falsy absent field; `initial_setup` is optional
and may also be the empty (falsy) string. -/
structure ChessComGame where
  url : String
  pgn : String
  end_time : Nat
  time_control : String
  time_class : String
  rated : Bool
  rules : String
  white : Side
  black : Side
  initial_setup : Option String
deriving DecidableEq

/-- The object built at `chess-com.ts` lines 255-267.  `date` is modelled
as the epoch-millisecond value `end_time * 1000` whose ISO rendering the
source stores: the rendering is injective and monotone, so field equality
and the date sort are unchanged.  The UI-only `expanded` flag is kept
with its constant value. -/
structure NormalizedGame where
  id : String
  date : Nat
  whitePlayer : String
  blackPlayer : String
  result : String
  rating : Nat
  gameType : String
  timeControl : String
  pgn : String
  clocks : List ClockInfo
  expanded : Bool
deriving DecidableEq

/-- Stable insert for the descending-by-date sort. -/
def insertDateDesc (g : NormalizedGame) : List NormalizedGame → List NormalizedGame
  | [] => [g]
  | h :: t => if g.date ≤ h.date then h :: insertDateDesc g t else g :: h :: t

/-- JS `Array.prototype.sort` with comparator `dateB - dateA`
(`chess-com.ts` line 269): a stable descending sort by date, modelled as
left-to-right insertion that places each later element after all
already-placed elements with a date not smaller than its own. -/
def sortByDateDesc (l : List NormalizedGame) : List NormalizedGame :=
  l.foldl (fun acc g => insertDateDesc g acc) []

/-- The standard starting position accepted by the filter at
`chess-com.ts` line 233. -/
def standardSetup : String :=
  "rnbqkbnr/pppppppp/8/8/8/8/PPPPPPPP/RNBQKBNR w KQkq - 0 1"

/-- `chess-com.ts` lines 215-275: the pure tail of `fetchChessComGames`
once the archives have been fetched — the five filters, the
normalization map, the date sort, and the empty-result check.  The
timestamps are the precomputed `startTimestamp`/`endTimestamp` of lines
154-155 (`none` models the `Infinity` default).  JS falsiness of
`game.end_time` is the `≠ 0` test; list entries model the non-null games
of the fetched archives. -/
def processGames (username : String) (startTimestamp : Nat)
    (endTimestamp : Option Nat) (gameType : String)
    (allGames : List ChessComGame) : Except String (List NormalizedGame) :=
  let step1 := allGames.filter (fun g =>
    g.end_time ≠ 0 && startTimestamp ≤ g.end_time &&
      (match endTimestamp with | some e => g.end_time ≤ e | none => true))
  let step2 := step1.filter (fun g =>
    if gameType = "all" then g.time_class == "blitz" || g.time_class == "rapid"
    else g.time_class == gameType)
  let step3 := step2.filter (fun g => g.rules == "" || g.rules == "chess")
  let step4 := step3.filter (fun g =>
    match g.initial_setup with
    | none => true
    | some s => s == "" || s == standardSetup)
  let step5 := step4.filter (fun g =>
    let opponent :=
      if jsLower g.white.username == jsLower username then jsLower g.black.username
      else jsLower g.white.username
    !(jsIncludes opponent "bot") && !(jsIncludes opponent "computer"))
  let mapped := step5.map (fun g =>
    let isWhite := jsLower g.white.username == jsLower username
    let playerRating := if isWhite then g.white.rating else g.black.rating
    let result :=
      if g.white.result == "win" then (if isWhite then "win" else "loss")
      else if g.black.result == "win" then (if isWhite then "loss" else "win")
      else "draw"
    let fp := formatPGN g.pgn
    { id := g.url
      date := g.end_time * 1000
      whitePlayer := g.white.username
      blackPlayer := g.black.username
      result := result
      rating := playerRating
      gameType := g.time_class ++ (if g.rated then " rated" else " casual")
      timeControl := parseTimeControl g.time_control
      pgn := fp.1
      clocks := fp.2
      expanded := false })
  let filteredGames := sortByDateDesc mapped
  if filteredGames.length = 0 then Except.error "No games found"
  else Except.ok filteredGames

end ChessCom

namespace Lichess

/-- `lichess.ts` lines 188-193: the top-level catch block of
`fetchLichessGames`, identical in shape to the chess.com one. -/
def catchNormalize (e : Thrown) : Thrown :=
  match e with
  | .errObj m => .errObj m
  | .nonError => .errObj "No games found"

/-- `lichess.ts` lines 43-48 (`formatClockTime`): centiseconds to a
`minutes:seconds` string with the seconds zero-padded to two digits. -/
def formatClockTime (centiseconds : Nat) : String :=
  let totalSeconds := centiseconds / 100
  let minutes := totalSeconds / 60
  let seconds := totalSeconds % 60
  Nat.repr minutes ++ ":" ++ padStartTwo (Nat.repr seconds)

/-- Total seconds of a `minutes:seconds` clock string
(`lichess.ts` lines 53-57); `none` models NaN. -/
def clockTotal? (s : String) : Option Int :=
  let parts := (splitOnChar ':' s.data).map (fun l => jsNum? (String.mk l))
  match parts.get? 0, parts.get? 1 with
  | some (some m), some (some sec) => some ((m : Int) * 60 + (sec : Int))
  | _, _ => none

/-- `lichess.ts` lines 50-64 (`calculateTimeSpent`): absent when either
clock is absent; otherwise previous total minus current total plus the
increment, discarded when that value is not strictly positive. -/
def calculateTimeSpent (currentClock previousClock : Option String)
    (increment : Int) : Option Int :=
  match currentClock, previousClock with
  | some c, some p =>
    (match clockTotal? c, clockTotal? p with
     | some currentTotal, some previousTotal =>
       let timeSpent := previousTotal - currentTotal + increment
       if timeSpent ≤ 0 then none else some timeSpent
     | _, _ => none)
  | _, _ => none

/-- The source stores the value as the string `timeSpent + "s"`. -/
def calculateTimeSpentStr (currentClock previousClock : Option String)
    (increment : Int) : Option String :=
  (calculateTimeSpent currentClock previousClock increment).map
    (fun n => toString n ++ "s")

/-- `lichess.ts` lines 33-40 (`LichessMove`). -/
structure LichessMove where
  move : String
  clockWhite : Option String := none
  clockBlack : Option String := none
  timeSpentWhite : Option String := none
  timeSpentBlack : Option String := none
  moveNumber : Nat
deriving DecidableEq

/-- `lichess.ts` line 139: the clock value for ply index `i` — present
only when the parallel clock array exists and is long enough, in which
case the centisecond entry is formatted. -/
def clockAtIdx (clocks : Option (List Nat)) (i : Nat) : Option String :=
  match clocks with
  | some cs => if i < cs.length then some (formatClockTime (cs.getD i 0)) else none
  | none => none

/-- The `for` loop of `lichess.ts` lines 135-164, with the running ply
index and the two per-color previous-clock trackers explicit.  An
all-whitespace move token is skipped without producing a record and
without updating the trackers, but still advances the index. -/
def buildMovesAux (clocks : Option (List Nat)) (increment : Int) :
    Nat → List String → Option String → Option String → List LichessMove
  | _, [], _, _ => []
  | i, mv :: rest, prevW, prevB =>
    if jsTrim mv ≠ "" then
      let isWhiteMove := i % 2 = 0
      let currentClock := clockAtIdx clocks i
      let moveObj : LichessMove :=
        if isWhiteMove then
          { move := mv, moveNumber := i / 2 + 1,
            clockWhite := currentClock,
            timeSpentWhite := calculateTimeSpentStr currentClock prevW increment }
        else
          { move := mv, moveNumber := i / 2 + 1,
            clockBlack := currentClock,
            timeSpentBlack := calculateTimeSpentStr currentClock prevB increment }
      moveObj ::
        (if isWhiteMove then buildMovesAux clocks increment (i + 1) rest currentClock prevB
         else buildMovesAux clocks increment (i + 1) rest prevW currentClock)
    else buildMovesAux clocks increment (i + 1) rest prevW prevB

/-- The move-building loop started on an already-split move array. -/
def lichessMoves (movesArray : List String) (clocks : Option (List Nat))
    (increment : Int) : List LichessMove :=
  buildMovesAux clocks increment 0 movesArray none none

/-- `game.moves.split(' ')` followed by the loop. -/
def buildMoves (moves : String) (clocks : Option (List Nat))
    (increment : Int) : List LichessMove :=
  lichessMoves ((splitOnChar ' ' moves.data).map String.mk) clocks increment

/-- One participant (`lichess.ts` lines 12-25). -/
structure Player where
  name : String
  rating : Nat
  aiLevel : Option Nat
deriving DecidableEq

/-- `lichess.ts` lines 2-31 (`LichessGame`).  The optional `clock` object
is a pair of `initial` and `increment` seconds. -/
structure LichessGame where
  id : String
  createdAt : Nat
  moves : String
  clocks : Option (List Nat)
  clock : Option (Nat × Nat)
  white : Player
  black : Player
  winner : Option String
  speed : String
  rated : Bool
  initialFen : Option String
deriving DecidableEq

/-- The object built at `lichess.ts` lines 166-179.  `date` is the
epoch-millisecond `createdAt` whose ISO rendering the source stores (the
rendering is injective and monotone).  The `initial/60` of the
time-control label is modelled with exact division — every game this
development evaluates has an initial time divisible by 60; the fractional
float rendering is presentation-only and outside every claim. -/
structure NormalizedGame where
  id : String
  date : Nat
  whitePlayer : String
  blackPlayer : String
  result : String
  rating : Nat
  gameType : String
  timeControl : String
  moves : List LichessMove
  expanded : Bool
deriving DecidableEq

/-- Stable insert for the descending-by-date sort. -/
def insertDateDesc (g : NormalizedGame) : List NormalizedGame → List NormalizedGame
  | [] => [g]
  | h :: t => if g.date ≤ h.date then h :: insertDateDesc g t else g :: h :: t

/-- JS `Array.prototype.sort` with comparator `dateB - dateA`
(`lichess.ts` line 181), as in the chess.com adapter. -/
def sortByDateDesc (l : List NormalizedGame) : List NormalizedGame :=
  l.foldl (fun acc g => insertDateDesc g acc) []

/-- `lichess.ts` lines 107-187: the pure tail of `fetchLichessGames` once
the NDJSON body has been parsed into a game list — the two filters, the
normalization map, the date sort, and the empty-result check. -/
def processGames (username : String) (games : List LichessGame) :
    Except String (List NormalizedGame) :=
  let step1 := games.filter (fun g =>
    match g.initialFen with
    | none => true
    | some s => s == "" || s == ChessCom.standardSetup)
  let step2 := step1.filter (fun g =>
    if g.white.aiLevel.isSome || g.black.aiLevel.isSome then false
    else
      let opponent :=
        if jsLower g.white.name == jsLower username then jsLower g.black.name
        else jsLower g.white.name
      !(jsIncludes opponent "bot") && !(jsIncludes opponent "stockfish") &&
        !(jsIncludes opponent "engine"))
  let mapped := step2.map (fun g =>
    let increment : Int := (g.clock.map Prod.snd).getD 0
    { id := g.id
      date := g.createdAt
      whitePlayer := g.white.name
      blackPlayer := g.black.name
      result :=
        (match g.winner with
         | some w => if w = "white" then "win" else "loss"
         | none => "draw")
      rating := g.white.rating
      gameType := g.speed ++ (if g.rated then " rated" else " casual")
      timeControl :=
        (match g.clock with
         | some c => Nat.repr (c.1 / 60) ++ "+" ++ Nat.repr c.2
         | none => "-")
      moves := buildMoves g.moves g.clocks increment
      expanded := false })
  let filteredGames := sortByDateDesc mapped
  if filteredGames.length = 0 then Except.error "No games found"
  else Except.ok filteredGames

end Lichess

/-- A non-empty all-digit string (the character class captured by the
clock regex's digit groups). -/
def DigitStr (s : String) : Prop :=
  s.data ≠ [] ∧ ∀ c ∈ s.data, c.isDigit = true

/-- A chess.com game that passes every filter of the pipeline. -/
def ccOkGame : ChessCom.ChessComGame :=
  { url := "u1", pgn := "", end_time := 100, time_control := "300",
    time_class := "blitz", rated := true, rules := "chess",
    white := { username := "Alice", rating := 1200, result := "win" },
    black := { username := "Carol", rating := 1100, result := "checkmated" },
    initial_setup := none }

/-- The normalized record the pipeline produces for `ccOkGame` when
queried as `alice`. -/
def ccOkNormalized : ChessCom.NormalizedGame :=
  { id := "u1", date := 100000, whitePlayer := "Alice", blackPlayer := "Carol",
    result := "win", rating := 1200, gameType := "blitz rated",
    timeControl := "5+0", pgn := "", clocks := [], expanded := false }

/-- A chess.com game whose only flaw is a bot opponent. -/
def ccBotGame : ChessCom.ChessComGame :=
  { ccOkGame with
    black := { username := "SuperBot2000", rating := 900, result := "checkmated" } }

/-- A lichess game won by black, with distinct ratings for the two sides. -/
def liBlackWinGame : Lichess.LichessGame :=
  { id := "L1", createdAt := 1000, moves := "", clocks := none, clock := none,
    white := { name := "alice", rating := 1500, aiLevel := none },
    black := { name := "bob", rating := 1800, aiLevel := none },
    winner := some "black", speed := "blitz", rated := true, initialFen := none }

/-- The normalized record the pipeline produces for `liBlackWinGame`. -/
def liOkNormalized : Lichess.NormalizedGame :=
  { id := "L1", date := 1000, whitePlayer := "alice", blackPlayer := "bob",
    result := "loss", rating := 1500, gameType := "blitz rated",
    timeControl := "-", moves := [], expanded := false }

/-- The same lichess game with no winner (a draw). -/
def liDrawGame : Lichess.LichessGame :=
  { liBlackWinGame with winner := none }

/-- A lichess game whose only flaw is a bot opponent. -/
def liBotGame : Lichess.LichessGame :=
  { liBlackWinGame with
    black := { name := "MegaBot", rating := 1800, aiLevel := none } }

/-- Four ply tokens, alternating white/black, all with parsable clocks. -/
def fourValidPlies : List String :=
  ["1. e4 \x7b[%clk 0:02:58]\x7d", "1... e5 \x7b[%clk 0:02:57]\x7d",
   "2. Nf3 \x7b[%clk 0:02:50]\x7d", "2... Nc6 \x7b[%clk 0:02:49]\x7d"]

/-- Three ply tokens whose middle (black) ply carries a brace annotation
with no parsable clock token. -/
def badClockPlies : List String :=
  ["1. e4 \x7b[%clk 0:03:00]\x7d", "1... e5 \x7bbad\x7d",
   "2. Nf3 \x7b[%clk 0:02:50]\x7d"]

lemma ok_of_length_guard {α : Type} (X l : List α)
    (h : (if X.length = 0 then (Except.error "No games found" : Except String (List α))
          else Except.ok X) = Except.ok l) : l ≠ [] := by
  split at h
  · exact absurd h (by simp)
  · next hlen =>
      cases h
      intro hnil
      exact hlen (by simp [hnil])

/-- C1: the spec requires `result` to be computed relative to the queried
username in both adapters, and the chess.com adapter does so; but the
lichess adapter maps the winner colour directly (`lichess.ts` lines
171-173), so the queried black participant of a black-won game is given
`loss`.  This theorem evaluates the embedded lichess pipeline at such a
game. -/
theorem c1_lichess_result_absolute :
    (Lichess.processGames "bob" [liBlackWinGame]).map (List.map (fun g => g.result)) =
      Except.ok ["loss"] ∧
    liBlackWinGame.winner = some "black" ∧
    jsLower liBlackWinGame.black.name = jsLower "bob" ∧
    ("loss" : String) ≠ "win" :=
  ⟨rfl, rfl, rfl, by decide⟩

/-- C2: in both adapters a present `timeSpent` value is strictly positive,
and a raw think time (previous total minus current total, plus the
increment for lichess) that is not positive yields an absent value. -/
theorem c2_timeSpent_positive :
    (∀ c p v, ChessCom.calculateTimeSpent c p = some v → 0 < v) ∧
    (∀ c p ct pt, ChessCom.clockTotal? c = some ct → ChessCom.clockTotal? p = some pt →
      pt - ct ≤ 0 → ChessCom.calculateTimeSpent c p = none) ∧
    (∀ c p inc v, Lichess.calculateTimeSpent c p inc = some v → 0 < v) ∧
    (∀ c p inc ct pt, Lichess.clockTotal? c = some ct → Lichess.clockTotal? p = some pt →
      pt - ct + inc ≤ 0 → Lichess.calculateTimeSpent (some c) (some p) inc = none) := by
  refine ⟨?_, ?_, ?_, ?_⟩
  · intro c p v h
    unfold ChessCom.calculateTimeSpent at h
    cases hc : ChessCom.clockTotal? c <;> rw [hc] at h
    · exact absurd h (by simp)
    · cases hp : ChessCom.clockTotal? p <;> rw [hp] at h
      · exact absurd h (by simp)
      · dsimp at h
        split at h
        · cases h; omega
        · exact absurd h (by simp)
  · intro c p ct pt hc hp hle
    unfold ChessCom.calculateTimeSpent
    rw [hc, hp]
    dsimp
    rw [if_neg (by omega)]
  · intro c p inc v h
    cases c with
    | none => exact absurd h (by simp [Lichess.calculateTimeSpent])
    | some c =>
      cases p with
      | none => exact absurd h (by simp [Lichess.calculateTimeSpent])
      | some p =>
        unfold Lichess.calculateTimeSpent at h
        dsimp only at h
        cases hc : Lichess.clockTotal? c <;> rw [hc] at h
        · exact absurd h (by simp)
        · cases hp : Lichess.clockTotal? p <;> rw [hp] at h
          · exact absurd h (by simp)
          · dsimp at h
            split at h
            · exact absurd h (by simp)
            · cases h; omega
  · intro c p inc ct pt hc hp hle
    unfold Lichess.calculateTimeSpent
    dsimp only
    rw [hc, hp]
    dsimp
    rw [if_pos (by omega)]

theorem c2_timeSpent_positive_witness :
    (0 : Int) < 10 ∧
    ChessCom.calculateTimeSpent "0:09:50" "0:09:00" = none ∧
    (0 : Int) < 12 ∧
    Lichess.calculateTimeSpent (some "3:00") (some "2:59") 0 = none :=
  ⟨c2_timeSpent_positive.1 "0:09:50" "0:10:00" 10 rfl,
   c2_timeSpent_positive.2.1 "0:09:50" "0:09:00" 590 540 rfl rfl (by decide),
   c2_timeSpent_positive.2.2.1 (some "2:48") (some "3:00") 0 12 rfl,
   c2_timeSpent_positive.2.2.2 "3:00" "2:59" 0 180 179 rfl rfl (by decide)⟩

/-- C3: the spec says unexpected failures such as network or JSON parse
errors are normalized to the not-found error and only a recognized
not-found error is re-thrown unchanged; but both catch blocks test
`instanceof Error`, so ANY `Error` — including a network `TypeError` or a
parse `SyntaxError` — is re-thrown unchanged.  A thrown `Error` with the
message `fetch failed` passes through both handlers untouched. -/
theorem c3_any_error_rethrown :
    ChessCom.catchNormalize (Thrown.errObj "fetch failed") =
      Thrown.errObj "fetch failed" ∧
    Lichess.catchNormalize (Thrown.errObj "fetch failed") =
      Thrown.errObj "fetch failed" ∧
    Thrown.errObj "fetch failed" ≠ Thrown.errObj "No games found" :=
  ⟨rfl, rfl, by decide⟩

/-- C3 (amended): both adapters' catch blocks re-throw every value that is
an `Error` instance unchanged — whether or not it is the recognized
not-found error — and normalize only non-`Error` thrown values to the
not-found error `No games found`. -/
theorem c3_catch_policy :
    (∀ m, ChessCom.catchNormalize (Thrown.errObj m) = Thrown.errObj m) ∧
    ChessCom.catchNormalize Thrown.nonError = Thrown.errObj "No games found" ∧
    (∀ m, Lichess.catchNormalize (Thrown.errObj m) = Thrown.errObj m) ∧
    Lichess.catchNormalize Thrown.nonError = Thrown.errObj "No games found" :=
  ⟨fun _ => rfl, rfl, fun _ => rfl, rfl⟩

/-- C7: the spec requires `rating` to be the queried player's rating in
both adapters, and the chess.com adapter selects it by side; but the
lichess adapter always stores the white player's rating (`lichess.ts`
line 174).  This theorem evaluates the embedded lichess pipeline queried
as the black participant, whose own rating differs. -/
theorem c7_lichess_rating_always_white :
    (Lichess.processGames "bob" [liDrawGame]).map (List.map (fun g => g.rating)) =
      Except.ok [1500] ∧
    liDrawGame.white.rating = 1500 ∧
    liDrawGame.black.rating = 1800 ∧
    jsLower liDrawGame.black.name = jsLower "bob" ∧
    (1500 : Nat) ≠ 1800 :=
  ⟨rfl, rfl, rfl, rfl, by decide⟩

/-- C8: when zero games survive filtering, both pipelines fail with the
`No games found` error, and a successful return is always a non-empty
list. -/
theorem c8_empty_result_contract :
    (∀ u sT eT gt gs l, ChessCom.processGames u sT eT gt gs = Except.ok l → l ≠ []) ∧
    (∀ u gs l, Lichess.processGames u gs = Except.ok l → l ≠ []) ∧
    ChessCom.processGames "alice" 0 none "all" [ccBotGame] =
      Except.error "No games found" ∧
    Lichess.processGames "alice" [liBotGame] = Except.error "No games found" := by
  refine ⟨?_, ?_, rfl, rfl⟩
  · intro u sT eT gt gs l h
    exact ok_of_length_guard _ l h
  · intro u gs l h
    exact ok_of_length_guard _ l h

theorem c8_empty_result_contract_witness :
    ([ccOkNormalized] : List ChessCom.NormalizedGame) ≠ [] ∧
    ([liOkNormalized] : List Lichess.NormalizedGame) ≠ [] :=
  ⟨c8_empty_result_contract.1 "alice" 0 none "all" [ccOkGame] [ccOkNormalized] rfl,
   c8_empty_result_contract.2.1 "bob" [liBlackWinGame] [liOkNormalized] rfl⟩

/-- C4: the claim says ply colour alternates and the full-move counter
advances after a black ply regardless of whether a carried clock
annotation is parsable; but a ply whose brace annotation has no parsable
clock token is skipped without toggling anything
(`chess-com.ts` lines 70-100, the inner `if (clock)` with no else).
On three plies whose middle black ply carries an unparsable annotation,
the third ply is recorded as a black ply of move 1, where the claimed
alternation predicts a white ply of move 2. -/
theorem c4_alternation_counterexample :
    (ChessCom.runTokens badClockPlies).clocks.map (fun c => (c.moveNumber, c.isWhite)) =
      [(1, true), (1, false)] ∧
    ([(1, true), (1, false)] : List (Nat × Bool)) ≠ [(1, true), (2, true)] ∧
    (ChessCom.runTokens badClockPlies).isWhiteMove = true :=
  ⟨by decide, by decide, by decide⟩

/-- C4 (amended): colour alternates and the counter advances after a black
ply for every ply token that carries no brace annotation, and for every
ply token whose brace annotation holds a parsable clock token; a ply
whose annotation's clock token does not parse leaves the loop state
unchanged.  Four plies with valid clocks yield move numbers 1,1,2,2 and
colours white,black,white,black. -/
theorem c4_alternation_and_numbering :
    (∀ st tok, ChessCom.braceMatch tok.data = none →
      (ChessCom.stepToken st tok).isWhiteMove = !st.isWhiteMove ∧
      (ChessCom.stepToken st tok).currentMoveNumber =
        (if st.isWhiteMove then st.currentMoveNumber else st.currentMoveNumber + 1)) ∧
    (∀ st tok content clock, ChessCom.braceMatch tok.data = some content →
      ChessCom.parseClockComment (String.mk content) = some clock →
      (ChessCom.stepToken st tok).isWhiteMove = !st.isWhiteMove ∧
      (ChessCom.stepToken st tok).currentMoveNumber =
        (if st.isWhiteMove then st.currentMoveNumber else st.currentMoveNumber + 1)) ∧
    (∀ st tok content, ChessCom.braceMatch tok.data = some content →
      ChessCom.parseClockComment (String.mk content) = none →
      ChessCom.stepToken st tok = st) ∧
    (ChessCom.runTokens fourValidPlies).clocks.map (fun c => (c.moveNumber, c.isWhite)) =
      [(1, true), (1, false), (2, true), (2, false)] := by
  refine ⟨?_, ?_, ?_, by decide⟩
  · intro st tok hb
    unfold ChessCom.stepToken
    rw [hb]
    exact ⟨rfl, rfl⟩
  · intro st tok content clock hb hc
    unfold ChessCom.stepToken
    rw [hb]
    dsimp only
    rw [hc]
    exact ⟨rfl, rfl⟩
  · intro st tok content hb hc
    unfold ChessCom.stepToken
    rw [hb]
    dsimp only
    rw [hc]

theorem c4_alternation_and_numbering_witness :
    (ChessCom.stepToken ChessCom.initState "x").isWhiteMove = false ∧
    (ChessCom.stepToken ChessCom.initState "1. e4 \x7b[%clk 0:03:00]\x7d").isWhiteMove =
      false ∧
    ChessCom.stepToken ChessCom.initState "1. e4 \x7bfoo\x7d" = ChessCom.initState :=
  ⟨(c4_alternation_and_numbering.1 ChessCom.initState "x" rfl).1,
   (c4_alternation_and_numbering.2.1 ChessCom.initState "1. e4 \x7b[%clk 0:03:00]\x7d"
     ("[%clk 0:03:00]".data) "0:03:0" rfl rfl).1,
   c4_alternation_and_numbering.2.2.1 ChessCom.initState "1. e4 \x7bfoo\x7d"
     ("foo".data) rfl rfl⟩

/-- C6: the claim says every ply token that does not yield a parsed clock
value is kept in the flattened move text; but a ply whose brace
annotation's clock token fails to parse is dropped from the flattened
text entirely (only annotation-FREE plies take the `else` branch that
keeps them).  A single ply with annotation `foo` produces an empty
flattened move list. -/
theorem c6_dropped_ply_counterexample :
    (ChessCom.runTokens ["1. e4 \x7bfoo\x7d"]).formattedMoves = [] ∧
    ¬ ("1. e4 \x7bfoo\x7d" ∈ (ChessCom.runTokens ["1. e4 \x7bfoo\x7d"]).formattedMoves) :=
  ⟨by decide, by decide⟩

/-- C6 (amended): a ply token without a brace annotation is kept verbatim
in the flattened move text and produces no timing entry; a ply token
whose annotation's clock parses is kept with the annotation stripped and
produces exactly one timing entry; a ply token whose annotation's clock
does not parse is omitted from both the flattened text and the timings
(the loop state is unchanged). -/
theorem c6_kept_tokens :
    (∀ st tok, ChessCom.braceMatch tok.data = none →
      (ChessCom.stepToken st tok).formattedMoves = st.formattedMoves ++ [tok] ∧
      (ChessCom.stepToken st tok).clocks = st.clocks) ∧
    (∀ st tok content clock, ChessCom.braceMatch tok.data = some content →
      ChessCom.parseClockComment (String.mk content) = some clock →
      (ChessCom.stepToken st tok).formattedMoves =
        st.formattedMoves ++ [jsTrim (String.mk (ChessCom.removeBrace tok.data))] ∧
      (ChessCom.stepToken st tok).clocks.length = st.clocks.length + 1) ∧
    (∀ st tok content, ChessCom.braceMatch tok.data = some content →
      ChessCom.parseClockComment (String.mk content) = none →
      ChessCom.stepToken st tok = st) := by
  refine ⟨?_, ?_, ?_⟩
  · intro st tok hb
    unfold ChessCom.stepToken
    rw [hb]
    exact ⟨rfl, rfl⟩
  · intro st tok content clock hb hc
    unfold ChessCom.stepToken
    rw [hb]
    dsimp only
    rw [hc]
    refine ⟨rfl, ?_⟩
    simp
  · intro st tok content hb hc
    unfold ChessCom.stepToken
    rw [hb]
    dsimp only
    rw [hc]

theorem c6_kept_tokens_witness :
    (ChessCom.stepToken ChessCom.initState "e4?").formattedMoves = ["e4?"] ∧
    (ChessCom.stepToken ChessCom.initState
      "1. e4 \x7b[%clk 0:03:00]\x7d").clocks.length = 1 ∧
    ChessCom.stepToken ChessCom.initState "1. e4 \x7bbar\x7d" = ChessCom.initState :=
  ⟨(c6_kept_tokens.1 ChessCom.initState "e4?" rfl).1,
   (c6_kept_tokens.2.1 ChessCom.initState "1. e4 \x7b[%clk 0:03:00]\x7d"
     ("[%clk 0:03:00]".data) "0:03:0" rfl rfl).2,
   c6_kept_tokens.2.2 ChessCom.initState "1. e4 \x7bbar\x7d" ("bar".data) rfl rfl⟩

/-- C9: the chess.com time-control formatter agrees pointwise with the
formatter described by the spec (day codes, `base[+increment]` with whole
minutes and zero-padded remainder when base is at least a minute, the
seconds form below a minute, default increment 0, and `-` for an
unparsable base), and produces the three exemplar renderings. -/
theorem c9_time_control_formatting :
    (∀ tc, ChessCom.parseTimeControl tc = ChessCom.parseTimeControlSpecModel tc) ∧
    ChessCom.parseTimeControl "1/604800" = "7 days" ∧
    ChessCom.parseTimeControl "180+2" = "3+2" ∧
    ChessCom.parseTimeControl "30" = "30s+0" := by
  refine ⟨?_, rfl, rfl, rfl⟩
  intro tc
  unfold ChessCom.parseTimeControl ChessCom.parseTimeControlSpecModel
  split_ifs
  · rfl
  · rfl
  · rfl
  · rfl
  · rfl
  · dsimp only
    cases hb : (((splitOnChar '+' tc.data).map (fun l => jsNum? (String.mk l))).get? 0).bind id with
    | none => rfl
    | some base =>
      dsimp only
      congr 1
      · congr 1
        by_cases h60 : 60 ≤ base
        · rw [if_pos (show base / 60 > 0 from Nat.div_pos h60 (by norm_num)), if_pos h60]
          by_cases hmod : base % 60 = 0
          · rw [if_neg (by omega), if_neg (by omega)]
          · rw [if_pos (by omega), if_pos hmod]
        · rw [if_neg (show ¬ base / 60 > 0 by
            have : base / 60 = 0 := Nat.div_eq_of_lt (by omega)
            omega), if_neg h60]
          have : base % 60 = base := Nat.mod_eq_of_lt (by omega)
          rw [this]
      · cases hi : (((splitOnChar '+' tc.data).map (fun l => jsNum? (String.mk l))).get? 1).bind id with
        | none => rfl
        | some i => rfl

lemma timeSpentStr_none_left (p : Option String) (inc : Int) :
    Lichess.calculateTimeSpentStr none p inc = none := rfl

lemma buildMovesAux_produces (clocks : Option (List Nat)) (inc : Int) :
    ∀ (ms : List String) (i0 j : Nat) (pW pB : Option String) (hj : j < ms.length),
      jsTrim (ms.get ⟨j, hj⟩) ≠ "" →
      ∃ r ∈ Lichess.buildMovesAux clocks inc i0 ms pW pB,
        r.move = ms.get ⟨j, hj⟩ ∧ r.moveNumber = (i0 + j) / 2 + 1 ∧
        ((i0 + j) % 2 = 0 →
          r.clockWhite = Lichess.clockAtIdx clocks (i0 + j) ∧
          (Lichess.clockAtIdx clocks (i0 + j) = none → r.timeSpentWhite = none)) ∧
        ((i0 + j) % 2 = 1 →
          r.clockBlack = Lichess.clockAtIdx clocks (i0 + j) ∧
          (Lichess.clockAtIdx clocks (i0 + j) = none → r.timeSpentBlack = none)) := by
  intro ms
  induction ms with
  | nil =>
    intro i0 j pW pB hj
    exact absurd hj (by simp)
  | cons m rest ih =>
    intro i0 j pW pB hj hne
    cases j with
    | zero =>
      have hne' : jsTrim m ≠ "" := hne
      unfold Lichess.buildMovesAux
      rw [if_pos hne']
      dsimp only
      by_cases hpar : i0 % 2 = 0
      · rw [if_pos hpar, if_pos hpar]
        refine ⟨_, List.mem_cons_self _ _, rfl, by simp, ?_, ?_⟩
        · intro _
          refine ⟨by simp, ?_⟩
          intro hnone
          simp only [Nat.add_zero] at hnone
          simp [hnone, timeSpentStr_none_left]
        · intro hodd
          omega
      · rw [if_neg hpar, if_neg hpar]
        refine ⟨_, List.mem_cons_self _ _, rfl, by simp, ?_, ?_⟩
        · intro heven
          simp only [Nat.add_zero] at heven
          exact absurd heven hpar
        · intro _
          refine ⟨by simp, ?_⟩
          intro hnone
          simp only [Nat.add_zero] at hnone
          simp [hnone, timeSpentStr_none_left]
    | succ j' =>
      have hj' : j' < rest.length := by
        simpa using hj
      have hne' : jsTrim (rest.get ⟨j', hj'⟩) ≠ "" := hne
      have e : i0 + 1 + j' = i0 + (j' + 1) := by omega
      unfold Lichess.buildMovesAux
      by_cases hm : jsTrim m ≠ ""
      · rw [if_pos hm]
        dsimp only
        by_cases hpar : i0 % 2 = 0
        · rw [if_pos hpar, if_pos hpar]
          obtain ⟨r, hr, hf⟩ :=
            ih (i0 + 1) j' (Lichess.clockAtIdx clocks i0) pB hj' hne'
          rw [e] at hf
          exact ⟨r, List.mem_cons_of_mem _ hr, hf⟩
        · rw [if_neg hpar, if_neg hpar]
          obtain ⟨r, hr, hf⟩ :=
            ih (i0 + 1) j' pW (Lichess.clockAtIdx clocks i0) hj' hne'
          rw [e] at hf
          exact ⟨r, List.mem_cons_of_mem _ hr, hf⟩
      · rw [if_neg hm]
        obtain ⟨r, hr, hf⟩ := ih (i0 + 1) j' pW pB hj' hne'
        rw [e] at hf
        exact ⟨r, hr, hf⟩

/-- C10: every non-empty ply token at index j yields a move record with
moveNumber floor(j/2)+1 and parity-selected fields; the parallel-clock
access is bounds-guarded, so when the clock array is absent or no longer
than j the record's clock field — and hence its think time — is absent
rather than any out-of-range access occurring. -/
theorem c10_bounds_guarded_clocks :
    (∀ (ms : List String) (clocks : Option (List Nat)) (inc : Int) (j : Nat)
      (hj : j < ms.length), jsTrim (ms.get ⟨j, hj⟩) ≠ "" →
      ∃ r ∈ Lichess.lichessMoves ms clocks inc,
        r.move = ms.get ⟨j, hj⟩ ∧ r.moveNumber = j / 2 + 1 ∧
        (j % 2 = 0 → r.clockWhite = Lichess.clockAtIdx clocks j ∧
          (Lichess.clockAtIdx clocks j = none → r.timeSpentWhite = none)) ∧
        (j % 2 = 1 → r.clockBlack = Lichess.clockAtIdx clocks j ∧
          (Lichess.clockAtIdx clocks j = none → r.timeSpentBlack = none))) ∧
    (∀ (cs : List Nat) (j : Nat), cs.length ≤ j →
      Lichess.clockAtIdx (some cs) j = none) ∧
    (∀ j : Nat, Lichess.clockAtIdx none j = none) := by
  refine ⟨?_, ?_, fun _ => rfl⟩
  · intro ms clocks inc j hj hne
    have h := buildMovesAux_produces clocks inc ms 0 j none none hj hne
    simpa only [Nat.zero_add] using h
  · intro cs j hle
    unfold Lichess.clockAtIdx
    dsimp only
    rw [if_neg (by omega)]

theorem c10_bounds_guarded_clocks_witness :
    (∃ r ∈ Lichess.lichessMoves ["e4"] (some []) 0,
      r.move = (["e4"] : List String).get ⟨0, by decide⟩ ∧ r.moveNumber = 0 / 2 + 1 ∧
      (0 % 2 = 0 → r.clockWhite = Lichess.clockAtIdx (some []) 0 ∧
        (Lichess.clockAtIdx (some []) 0 = none → r.timeSpentWhite = none)) ∧
      (0 % 2 = 1 → r.clockBlack = Lichess.clockAtIdx (some []) 0 ∧
        (Lichess.clockAtIdx (some []) 0 = none → r.timeSpentBlack = none))) ∧
    Lichess.clockAtIdx (some []) 0 = none :=
  ⟨c10_bounds_guarded_clocks.1 ["e4"] (some []) 0 0 (by decide) (by decide),
   c10_bounds_guarded_clocks.2.1 [] 0 (by decide)⟩

lemma string_mk_data (s : String) : String.mk s.data = s := by
  cases s
  rfl

lemma digit_not_ws (c : Char) (h : c.isDigit = true) : c.isWhitespace = false := by
  by_contra hws
  rw [Bool.not_eq_false] at hws
  simp only [Char.isWhitespace, Bool.or_eq_true, decide_eq_true_eq] at hws
  rcases hws with ((rfl | rfl) | rfl) | rfl <;> simp [Char.isDigit] at h

lemma takeWhile_append_run (p : Char → Bool) (d : List Char) (c : Char) (r : List Char)
    (hd : ∀ x ∈ d, p x = true) (hc : p c = false) :
    (d ++ c :: r).takeWhile p = d ∧ (d ++ c :: r).dropWhile p = c :: r := by
  induction d with
  | nil => simp [List.takeWhile_cons, List.dropWhile_cons, hc]
  | cons a d ih =>
    have ha : p a = true := hd a (by simp)
    have hd' : ∀ x ∈ d, p x = true := fun x hx => hd x (by simp [hx])
    obtain ⟨h1, h2⟩ := ih hd'
    simp [List.takeWhile_cons, List.dropWhile_cons, ha, h1, h2]

lemma takeWhile_all (p : Char → Bool) (l : List Char) (h : ∀ x ∈ l, p x = true) :
    l.takeWhile p = l := by
  induction l with
  | nil => rfl
  | cons a l ih =>
    have ha : p a = true := h a (by simp)
    have h' : ∀ x ∈ l, p x = true := fun x hx => h x (by simp [hx])
    simp [List.takeWhile_cons, ha, ih h']

lemma munch1_run (p : Char → Bool) (d : List Char) (c : Char) (r : List Char)
    (hne : d ≠ []) (hd : ∀ x ∈ d, p x = true) (hc : p c = false) :
    ChessCom.munch1 p (d ++ c :: r) = some (d, c :: r) := by
  obtain ⟨h1, h2⟩ := takeWhile_append_run p d c r hd hc
  unfold ChessCom.munch1
  dsimp only
  rw [h1, h2, if_neg (by simp [List.isEmpty_iff, hne])]

example : True := trivial

lemma ws_space : ∀ x ∈ ([' '] : List Char), x.isWhitespace = true := by
  intro x hx
  simp at hx
  subst hx
  rfl

lemma matchClkBody_plain (hd md sd : List Char)
    (hh : hd ≠ []) (hhd : ∀ c ∈ hd, c.isDigit = true)
    (hm : md ≠ []) (hmd : ∀ c ∈ md, c.isDigit = true)
    (hs : sd ≠ []) (hsd : ∀ c ∈ sd, c.isDigit = true) :
    ChessCom.matchClkBody (' ' :: (hd ++ ':' :: (md ++ ':' :: (sd ++ [']'])))) =
      some (hd, md, sd) := by
  obtain ⟨c0, hd0, rfl⟩ : ∃ c0 hd0, hd = c0 :: hd0 := by
    cases hd with
    | nil => exact absurd rfl hh
    | cons a l => exact ⟨a, l, rfl⟩
  obtain ⟨c1, md0, rfl⟩ : ∃ c1 md0, md = c1 :: md0 := by
    cases md with
    | nil => exact absurd rfl hm
    | cons a l => exact ⟨a, l, rfl⟩
  obtain ⟨c2, sd0, rfl⟩ : ∃ c2 sd0, sd = c2 :: sd0 := by
    cases sd with
    | nil => exact absurd rfl hs
    | cons a l => exact ⟨a, l, rfl⟩
  have s1 := munch1_run Char.isWhitespace [' '] c0
    (hd0 ++ ':' :: (c1 :: md0 ++ ':' :: (c2 :: sd0 ++ [']']))) (by simp) ws_space
    (digit_not_ws c0 (hhd c0 (by simp)))
  have s2 := munch1_run Char.isDigit (c0 :: hd0) ':'
    (c1 :: md0 ++ ':' :: (c2 :: sd0 ++ [']'])) (by simp) hhd rfl
  have s3 := munch1_run Char.isDigit (c1 :: md0) ':' (c2 :: sd0 ++ [']']) (by simp) hmd rfl
  have s4 := munch1_run Char.isDigit (c2 :: sd0) ']' [] (by simp) hsd rfl
  simp only [List.cons_append, List.singleton_append, List.nil_append] at s1 s2 s3 s4 ⊢
  unfold ChessCom.matchClkBody
  simp only [s1, s2, s3, s4]

lemma matchClkBody_frac (hd md sd fd : List Char)
    (hh : hd ≠ []) (hhd : ∀ c ∈ hd, c.isDigit = true)
    (hm : md ≠ []) (hmd : ∀ c ∈ md, c.isDigit = true)
    (hs : sd ≠ []) (hsd : ∀ c ∈ sd, c.isDigit = true)
    (hf : fd ≠ []) (hfd : ∀ c ∈ fd, c.isDigit = true) :
    ChessCom.matchClkBody
        (' ' :: (hd ++ ':' :: (md ++ ':' :: (sd ++ '.' :: (fd ++ [']']))))) =
      some (hd, md, sd ++ '.' :: fd) := by
  obtain ⟨c0, hd0, rfl⟩ : ∃ c0 hd0, hd = c0 :: hd0 := by
    cases hd with
    | nil => exact absurd rfl hh
    | cons a l => exact ⟨a, l, rfl⟩
  obtain ⟨c1, md0, rfl⟩ : ∃ c1 md0, md = c1 :: md0 := by
    cases md with
    | nil => exact absurd rfl hm
    | cons a l => exact ⟨a, l, rfl⟩
  obtain ⟨c2, sd0, rfl⟩ : ∃ c2 sd0, sd = c2 :: sd0 := by
    cases sd with
    | nil => exact absurd rfl hs
    | cons a l => exact ⟨a, l, rfl⟩
  obtain ⟨c3, fd0, rfl⟩ : ∃ c3 fd0, fd = c3 :: fd0 := by
    cases fd with
    | nil => exact absurd rfl hf
    | cons a l => exact ⟨a, l, rfl⟩
  have s1 := munch1_run Char.isWhitespace [' '] c0
    (hd0 ++ ':' :: (c1 :: md0 ++ ':' :: (c2 :: sd0 ++ '.' :: (c3 :: fd0 ++ [']']))))
    (by simp) ws_space (digit_not_ws c0 (hhd c0 (by simp)))
  have s2 := munch1_run Char.isDigit (c0 :: hd0) ':'
    (c1 :: md0 ++ ':' :: (c2 :: sd0 ++ '.' :: (c3 :: fd0 ++ [']']))) (by simp) hhd rfl
  have s3 := munch1_run Char.isDigit (c1 :: md0) ':'
    (c2 :: sd0 ++ '.' :: (c3 :: fd0 ++ [']'])) (by simp) hmd rfl
  have s4 := munch1_run Char.isDigit (c2 :: sd0) '.' (c3 :: fd0 ++ [']'])
    (by simp) hsd rfl
  have s5 := munch1_run Char.isDigit (c3 :: fd0) ']' [] (by simp) hfd rfl
  simp only [List.cons_append, List.singleton_append, List.nil_append] at s1 s2 s3 s4 s5 ⊢
  unfold ChessCom.matchClkBody
  simp only [s1, s2, s3, s4, s5]
  rfl

lemma parseClockComment_frac (hs ms ss fs : String)
    (Hh : DigitStr hs) (Hm : DigitStr ms) (Hs : DigitStr ss) (Hf : DigitStr fs) :
    ChessCom.parseClockComment
        ("[%clk " ++ hs ++ ":" ++ ms ++ ":" ++ ss ++ "." ++ fs ++ "]") =
      some (hs ++ ":" ++ ms ++ ":" ++ Nat.repr (natOfDigits ss.data)) := by
  obtain ⟨hne1, hd1⟩ := Hh
  obtain ⟨hne2, hd2⟩ := Hm
  obtain ⟨hne3, hd3⟩ := Hs
  obtain ⟨hne4, hd4⟩ := Hf
  have hdata : ("[%clk " ++ hs ++ ":" ++ ms ++ ":" ++ ss ++ "." ++ fs ++ "]").data =
      '[' :: '%' :: 'c' :: 'l' :: 'k' :: ' ' ::
        (hs.data ++ ':' :: (ms.data ++ ':' :: (ss.data ++ '.' :: (fs.data ++ [']'])))) := by
    simp only [String.data_append, List.append_assoc, List.cons_append, List.nil_append]
  unfold ChessCom.parseClockComment
  rw [hdata]
  simp only [ChessCom.searchClk]
  rw [matchClkBody_frac hs.data ms.data ss.data fs.data hne1 hd1 hne2 hd2 hne3 hd3 hne4 hd4]
  have hfloor : ChessCom.parseFloatFloor (ss.data ++ '.' :: fs.data) = natOfDigits ss.data := by
    unfold ChessCom.parseFloatFloor
    rw [(takeWhile_append_run Char.isDigit ss.data '.' fs.data hd3 rfl).1]
  dsimp only
  rw [hfloor, string_mk_data, string_mk_data]

lemma parseClockComment_plain (hs ms ss : String)
    (Hh : DigitStr hs) (Hm : DigitStr ms) (Hs : DigitStr ss) :
    ChessCom.parseClockComment ("[%clk " ++ hs ++ ":" ++ ms ++ ":" ++ ss ++ "]") =
      some (hs ++ ":" ++ ms ++ ":" ++ Nat.repr (natOfDigits ss.data)) := by
  obtain ⟨hne1, hd1⟩ := Hh
  obtain ⟨hne2, hd2⟩ := Hm
  obtain ⟨hne3, hd3⟩ := Hs
  have hdata : ("[%clk " ++ hs ++ ":" ++ ms ++ ":" ++ ss ++ "]").data =
      '[' :: '%' :: 'c' :: 'l' :: 'k' :: ' ' ::
        (hs.data ++ ':' :: (ms.data ++ ':' :: (ss.data ++ [']']))) := by
    simp only [String.data_append, List.append_assoc, List.cons_append, List.nil_append]
  unfold ChessCom.parseClockComment
  rw [hdata]
  simp only [ChessCom.searchClk]
  rw [matchClkBody_plain hs.data ms.data ss.data hne1 hd1 hne2 hd2 hne3 hd3]
  have hfloor : ChessCom.parseFloatFloor ss.data = natOfDigits ss.data := by
    unfold ChessCom.parseFloatFloor
    rw [takeWhile_all Char.isDigit ss.data hd3]
  dsimp only
  rw [hfloor, string_mk_data, string_mk_data]

/-- C5: the claim says an `H:MM:SS[.frac]` clock annotation is normalized
to `H:MM:S`, giving `"0:5:12"` for `"0:05:12.9"`; but the source rebuilds
the string from the captured hour and minute fields VERBATIM and only the
seconds field is re-rendered, so `"0:05:12.9"` parses to `"0:05:12"`,
not `"0:5:12"`. -/
theorem c5_minutes_verbatim_counterexample :
    ChessCom.parseClockComment "[%clk 0:05:12.9]" = some "0:05:12" ∧
    (some "0:05:12" : Option String) ≠ some "0:5:12" :=
  ⟨rfl, by decide⟩

/-- C5 (amended): for every clock annotation of shape `H:MM:SS` with an
optional fractional-seconds part, the parser yields the hour and minute
capture groups verbatim and the seconds group truncated (not rounded) to
an integer re-rendered in decimal; in particular `"0:05:12.9"` yields
`"0:05:12"`. -/
theorem c5_clock_normalization :
    (∀ hs ms ss fs : String, DigitStr hs → DigitStr ms → DigitStr ss → DigitStr fs →
      ChessCom.parseClockComment
          ("[%clk " ++ hs ++ ":" ++ ms ++ ":" ++ ss ++ "." ++ fs ++ "]") =
        some (hs ++ ":" ++ ms ++ ":" ++ Nat.repr (natOfDigits ss.data)) ∧
      ChessCom.parseClockComment ("[%clk " ++ hs ++ ":" ++ ms ++ ":" ++ ss ++ "]") =
        some (hs ++ ":" ++ ms ++ ":" ++ Nat.repr (natOfDigits ss.data))) ∧
    ChessCom.parseClockComment "[%clk 0:05:12.9]" = some "0:05:12" := by
  refine ⟨?_, rfl⟩
  intro hs ms ss fs Hh Hm Hs Hf
  exact ⟨parseClockComment_frac hs ms ss fs Hh Hm Hs Hf,
         parseClockComment_plain hs ms ss Hh Hm Hs⟩

theorem c5_clock_normalization_witness :
    ChessCom.parseClockComment ("[%clk " ++ "0" ++ ":" ++ "05" ++ ":" ++ "12" ++ "." ++ "9" ++ "]") =
      some ("0" ++ ":" ++ "05" ++ ":" ++ Nat.repr (natOfDigits "12".data)) ∧
    ChessCom.parseClockComment ("[%clk " ++ "0" ++ ":" ++ "05" ++ ":" ++ "12" ++ "]") =
      some ("0" ++ ":" ++ "05" ++ ":" ++ Nat.repr (natOfDigits "12".data)) :=
  c5_clock_normalization.1 "0" "05" "12" "9"
    ⟨by decide, by decide⟩ ⟨by decide, by decide⟩ ⟨by decide, by decide⟩ ⟨by decide, by decide⟩
